import Mathlib

/-!
Shallow embedding of the Ollama models manager (src/models.py, src/operations.py,
src/utils.py) and proofs about its copy / delete / move operations.

Modelling conventions:
* Filesystem paths are lists of components (`FPath`); `os.path.join(d, "blobs", h)`
  becomes `d ++ ["blobs", h]`, `os.path.dirname` becomes `List.dropLast`, and
  `os.path.basename` becomes the last component.
* File contents are byte lists (`Content`); `os.path.getsize` is content length.
* The filesystem is a map from paths to optional contents plus per-path
  permission bits (for `os.access`) and ownership/mode metadata (for
  `os.chown` / `os.chmod`).  Directories themselves are not represented:
  `os.makedirs` and the final empty-manifest-directory pruning of
  `delete_model` (operations.py lines 237-244) act only on directories and are
  not modelled; `os.remove` is modelled as succeeding whenever the file exists.
* `json.load` is abstracted as a `decode : Content → Option Manifest`
  parameter; `none` corresponds to a `json.JSONDecodeError`.
* `print` output relevant to the claims is modelled as a `LogEntry` trace;
  progress-bar output and the ownership warning are not traced.
* `exit(1)` is the `Outcome.exited 1` result; an early `return` that skips a
  model (operations.py line 75) is `Outcome.skippedModel`.
-/

abbrev FPath := List String
abbrev Content := List Nat

/-- `os.path.basename` on a component-list path (last component, `""` for the
empty path). -/
def basenameD (p : FPath) : String := p.getLastD ""

/-- One entry of `manifest_data["layers"]` (models.py line 128,
operations.py line 62): a digest string and a declared byte size. -/
structure Layer where
  digest : String
  size : Nat
deriving DecidableEq

/-- The fields of a parsed manifest that the source reads: `mediaType`,
`config.digest` and the `layers` array. -/
structure Manifest where
  mediaType : String
  configDigest : String
  layers : List Layer
deriving DecidableEq

/-- `ModelInfo` dataclass from models.py lines 10-18. -/
structure ModelInfo where
  nspace : String
  model : String
  version : String
  path : FPath
  model_name : String
  hashes : Option (List String) := none
deriving DecidableEq

/-- Filesystem state: file contents, ownership and mode metadata, the
`os.access` permission bits, and the result of looking up the `ollama`
user/group (`none` models the `KeyError` branch). -/
structure FS where
  files : FPath → Option Content
  owner : FPath → Nat × Nat
  mode : FPath → Nat
  accessW : FPath → Bool
  accessR : FPath → Bool
  accessX : FPath → Bool
  ollamaIds : Option (Nat × Nat)

/-- `open(p, 'wb')` followed by writing `c`: replaces the file's content. -/
def FS.write (fs : FS) (p : FPath) (c : Content) : FS :=
  { fs with files := fun q => if q = p then some c else fs.files q }

/-- `os.remove p`. -/
def FS.remove (fs : FS) (p : FPath) : FS :=
  { fs with files := fun q => if q = p then none else fs.files q }

/-- `os.chown p ids` followed by `os.chmod p m`. -/
def FS.chownmod (fs : FS) (p : FPath) (ids : Nat × Nat) (m : Nat) : FS :=
  { fs with owner := fun q => if q = p then ids else fs.owner q,
            mode := fun q => if q = p then m else fs.mode q }

/-- `path_check` from utils.py lines 16-25 (`os.path.exists`). -/
def path_check (fs : FS) (p : FPath) : Bool := (fs.files p).isSome

/-- `os.path.getsize` (0 for a missing file; the source only calls it on
files shown to exist). -/
def getsize (fs : FS) (p : FPath) : Nat := ((fs.files p).getD []).length

/-- Digest-to-filename substitution `digest.replace(":", "-")`
(models.py lines 124/129, operations.py lines 54/63/191/200). -/
def dashDigest (d : String) : String :=
  String.mk (d.data.map (fun ch => if ch = ':' then '-' else ch))

/-- One `files_data` record (operations.py lines 47-68 and 184-205). -/
structure FileEntry where
  is_manifest : Bool
  filename : String
  filepath : FPath
deriving DecidableEq

/-- The manifest record of `files_data` (operations.py lines 47-51, 184-188). -/
def manifestEntry (model : ModelInfo) : FileEntry :=
  { is_manifest := true, filename := basenameD model.path, filepath := model.path }

/-- The config-blob record of `files_data` (operations.py lines 53-59, 190-196). -/
def configEntry (from_dir : FPath) (m : Manifest) : FileEntry :=
  { is_manifest := false, filename := dashDigest m.configDigest,
    filepath := from_dir ++ ["blobs", dashDigest m.configDigest] }

/-- A layer-blob record of `files_data` (operations.py lines 61-68, 198-205). -/
def layerEntry (from_dir : FPath) (l : Layer) : FileEntry :=
  { is_manifest := false, filename := dashDigest l.digest,
    filepath := from_dir ++ ["blobs", dashDigest l.digest] }

/-- Stable insertion used to model Python's stable
`sorted(layers, key=size, reverse=True)` (operations.py line 62). -/
def insertLayerDesc (x : Layer) : List Layer → List Layer
  | [] => [x]
  | y :: ys => if x.size < y.size then y :: insertLayerDesc x ys else x :: y :: ys

/-- Stable largest-first sort of the layer list (operations.py line 62). -/
def sortLayersDesc : List Layer → List Layer
  | [] => []
  | x :: xs => insertLayerDesc x (sortLayersDesc xs)

/-- `files_data` as built by `copy_model` (operations.py lines 45-68):
manifest record first, then config blob, then layers largest-first. -/
def copyFilesData (from_dir : FPath) (model : ModelInfo) (m : Manifest) : List FileEntry :=
  manifestEntry model :: configEntry from_dir m ::
    (sortLayersDesc m.layers).map (layerEntry from_dir)

/-- `files_data` as built by `delete_model` (operations.py lines 182-205):
manifest record first, then config blob, then layers in manifest order. -/
def deleteFilesData (from_dir : FPath) (model : ModelInfo) (m : Manifest) : List FileEntry :=
  manifestEntry model :: configEntry from_dir m :: m.layers.map (layerEntry from_dir)

/-- The media-type allow-list (operations.py lines 38-41). -/
def allowedMediaTypes : List String :=
  ["application/vnd.docker.distribution.manifest.v2+json",
   "application/vnd.docker.container.image.v1+json"]

/-- Component-level rendering of the substring test
`'/usr/share/ollama' in to_dir` (operations.py lines 100, 138). -/
def startsWithUSO : FPath → Bool
  | "usr" :: "share" :: "ollama" :: _ => true
  | _ => false

/-- `'/usr/share/ollama' in to_dir`, over path components. -/
def managedInstall : FPath → Bool
  | [] => false
  | p :: rest => startsWithUSO (p :: rest) || managedInstall rest

/-- The ownership/permission reset of operations.py lines 102-108 and
140-147: chown/chmod when the `ollama` identity exists, otherwise keep
defaults. -/
def applyOllamaOwn (fs : FS) (p : FPath) (m : Nat) : FS :=
  match fs.ollamaIds with
  | some ids => fs.chownmod p ids m
  | none => fs

/-- The manifest destination path (operations.py lines 84-87). -/
def manifestDest (to_dir : FPath) (model : ModelInfo) : FPath :=
  to_dir ++ ["manifests", "registry.ollama.ai", model.nspace, model.model, model.version]

/-- `to_path` for a `files_data` record (operations.py lines 81-87). -/
def destPath (to_dir : FPath) (model : ModelInfo) (f : FileEntry) : FPath :=
  if f.is_manifest then manifestDest to_dir model else to_dir ++ ["blobs", f.filename]

inductive LogEntry where
  | notExist (p : FPath)
  | manifestError
  | unsupportedMediaType (mt : String)
  | skippingModel (name : String)
  | copyingModel (name : String)
  | replacing (p : FPath)
  | skippedExisting (filename : String)
  | softReplacing (p : FPath)
  | modelCopied (name : String) (to_dir : FPath)
  | permissionDenied (p : FPath)
  | skippedShared (filename : String) (users : List String)
  | deletedFile (p : FPath)
  | errorDeleting (p : FPath)
  | modelDeleted (name : String)
  | movingModel (name : String)
  | modelMoved (name : String)
  | manifestReadError (name : String)
deriving DecidableEq

inductive Outcome where
  | ok
  | skippedModel
  | exited (code : Nat)
deriving DecidableEq

/-- The file-copying part of one iteration of the copy loop
(operations.py lines 99-147): ownership/permission reset on the parent
directory for managed destinations (lines 100-108), the chunked write whose
net effect is that `to_path` gets the source's bytes (lines 113-137), and
the ownership/permission reset on the copied file (lines 138-147). -/
def copyAction (to_dir : FPath) (model : ModelInfo) (fs0 : FS) (f : FileEntry) : FS :=
  let to_path := destPath to_dir model f
  let fs1 := if managedInstall to_dir then applyOllamaOwn fs0 to_path.dropLast 0o755 else fs0
  let fs2 := fs1.write to_path ((fs1.files f.filepath).getD [])
  if managedInstall to_dir then applyOllamaOwn fs2 to_path 0o644 else fs2

/-- The body of the copy loop (operations.py lines 79-153) for one
`files_data` record: skip when the destination exists with equal size and
`always_replace` is false, otherwise perform `copyAction`. -/
def copyFileStep (to_dir : FPath) (model : ModelInfo) (always_replace : Bool)
    (acc : FS × List LogEntry) (f : FileEntry) : FS × List LogEntry :=
  if path_check acc.1 (destPath to_dir model f) then
    if getsize acc.1 f.filepath = getsize acc.1 (destPath to_dir model f) then
      if always_replace then
        (copyAction to_dir model acc.1 f,
         acc.2 ++ [LogEntry.replacing (destPath to_dir model f)])
      else (acc.1, acc.2 ++ [LogEntry.skippedExisting f.filename])
    else
      (copyAction to_dir model acc.1 f,
       acc.2 ++ [LogEntry.softReplacing (destPath to_dir model f)])
  else (copyAction to_dir model acc.1 f, acc.2)

/-- `copy_model` (operations.py lines 14-155). -/
def copy_model (decode : Content → Option Manifest) (from_dir to_dir : FPath)
    (model : ModelInfo) (always_replace : Bool) (fs : FS) :
    FS × List LogEntry × Outcome :=
  if path_check fs model.path then
    match decode ((fs.files model.path).getD []) with
    | none => (fs, [LogEntry.manifestError], Outcome.exited 1)
    | some manifest =>
      if manifest.mediaType ∈ allowedMediaTypes then
        let files_data := copyFilesData from_dir model manifest
        match files_data.find? (fun f => !(path_check fs f.filepath)) with
        | some f =>
          (fs, [LogEntry.notExist f.filepath, LogEntry.skippingModel model.model_name],
           Outcome.skippedModel)
        | none =>
          let r := files_data.foldl (copyFileStep to_dir model always_replace)
            (fs, [LogEntry.copyingModel model.model_name])
          (r.1, r.2 ++ [LogEntry.modelCopied model.model_name to_dir], Outcome.ok)
      else (fs, [LogEntry.unsupportedMediaType manifest.mediaType], Outcome.exited 1)
  else (fs, [LogEntry.notExist model.path], Outcome.exited 1)

/-- `clone_list` computation (operations.py lines 220-225): names of the
models in `all_hashes` whose (truthy) hash list contains `filename`. -/
def cloneUsers (all_hashes : List ModelInfo) (filename : String) : List String :=
  (all_hashes.filter (fun h =>
    match h.hashes with
    | some hs => !hs.isEmpty && hs.contains filename
    | none => false)).map (fun h => h.model_name)

/-- The body of the delete loop (operations.py lines 218-235) for one
`files_data` record. -/
def deleteFileStep (all_hashes : List ModelInfo) (acc : FS × List LogEntry)
    (f : FileEntry) : FS × List LogEntry :=
  if !(cloneUsers all_hashes f.filename).isEmpty then
    (acc.1, acc.2 ++ [LogEntry.skippedShared f.filename (cloneUsers all_hashes f.filename)])
  else if (acc.1.files f.filepath).isSome then
    (acc.1.remove f.filepath, acc.2 ++ [LogEntry.deletedFile f.filepath])
  else
    (acc.1, acc.2 ++ [LogEntry.errorDeleting f.filepath])

/-- The permission preflight test for one file (operations.py lines 208-215):
the file is writable, or its parent directory is readable, searchable and
writable. -/
def permOk (fs : FS) (p : FPath) : Bool :=
  fs.accessW p ||
    (fs.accessR p.dropLast && fs.accessX p.dropLast && fs.accessW p.dropLast)

/-- `delete_model` (operations.py lines 157-246; the empty-manifest-directory
pruning of lines 237-244 acts only on directories and is outside the file
map). -/
def delete_model (decode : Content → Option Manifest) (from_dir : FPath)
    (model : ModelInfo) (all_hashes : List ModelInfo) (fs : FS) :
    FS × List LogEntry × Outcome :=
  let others := all_hashes.filter (fun h => h.model_name != model.model_name)
  if path_check fs model.path then
    match decode ((fs.files model.path).getD []) with
    | none => (fs, [LogEntry.manifestError], Outcome.exited 1)
    | some manifest =>
      let files_data := deleteFilesData from_dir model manifest
      match files_data.find? (fun f => !(permOk fs f.filepath)) with
      | some f => (fs, [LogEntry.permissionDenied f.filepath], Outcome.exited 1)
      | none =>
        let r := files_data.foldl (deleteFileStep others) (fs, [])
        (r.1, r.2 ++ [LogEntry.modelDeleted model.model_name], Outcome.ok)
  else (fs, [LogEntry.notExist model.path], Outcome.exited 1)

/-- `move_model` (operations.py lines 248-266): copy, then delete; an
`exit(1)` inside either phase aborts the invocation at that point. -/
def move_model (decode : Content → Option Manifest) (from_dir to_dir : FPath)
    (model : ModelInfo) (all_hashes : List ModelInfo) (always_replace : Bool)
    (fs : FS) : FS × List LogEntry × Outcome :=
  let c := copy_model decode from_dir to_dir model always_replace fs
  match c.2.2 with
  | Outcome.exited n => (c.1, LogEntry.movingModel model.model_name :: c.2.1, Outcome.exited n)
  | _ =>
    let d := delete_model decode from_dir model all_hashes c.1
    match d.2.2 with
    | Outcome.exited n =>
      (d.1, LogEntry.movingModel model.model_name :: (c.2.1 ++ d.2.1), Outcome.exited n)
    | _ =>
      (d.1, LogEntry.movingModel model.model_name :: (c.2.1 ++ d.2.1)
        ++ [LogEntry.modelMoved model.model_name], Outcome.ok)

/-- One (namespace, model, version) leaf of the registry walk of
models.py lines 107-111; the directory walk itself is abstracted as the
given list of leaves. -/
structure ScanEntry where
  nspace : String
  model : String
  version : String
deriving DecidableEq

/-- Display name construction (models.py lines 112-113). -/
def displayName (nspace model version : String) : String :=
  (if nspace = "library" then "" else nspace ++ "/") ++ model ++ ":" ++ version

/-- `version_path` (models.py lines 93, 108, 110, 114). -/
def versionPath (internal_dir : FPath) (e : ScanEntry) : FPath :=
  internal_dir ++ ["manifests", "registry.ollama.ai", e.nspace, e.model, e.version]

/-- Per-leaf body of `get_all_hashes` (models.py lines 116-141): `none` when
the manifest cannot be read or parsed (the skipped-with-warning case),
otherwise the `ModelInfo` with its hash list. -/
def gahModel (decode : Content → Option Manifest) (internal_dir : FPath) (fs : FS)
    (e : ScanEntry) : Option ModelInfo :=
  match fs.files (versionPath internal_dir e) with
  | none => none
  | some c =>
    match decode c with
    | none => none
    | some m =>
      some { nspace := e.nspace, model := e.model, version := e.version,
             path := versionPath internal_dir e,
             model_name := displayName e.nspace e.model e.version,
             hashes := some (dashDigest m.configDigest ::
               m.layers.map (fun l => dashDigest l.digest)) }

/-- The warning printed for a leaf whose manifest fails to read or parse
(models.py lines 119-121). -/
def gahWarn (decode : Content → Option Manifest) (internal_dir : FPath) (fs : FS)
    (e : ScanEntry) : List LogEntry :=
  if (gahModel decode internal_dir fs e).isNone then
    [LogEntry.manifestReadError (displayName e.nspace e.model e.version)] else []

/-- `get_all_hashes` (models.py lines 80-150) over an abstracted registry
walk: failing leaves are skipped with a warning, and the run exits only
when no model at all was resolved (`total_models == 0`, line 143). -/
def get_all_hashes (decode : Content → Option Manifest) (internal_dir : FPath)
    (scan : List ScanEntry) (fs : FS) : List ModelInfo × List LogEntry × Outcome :=
  let models := scan.filterMap (gahModel decode internal_dir fs)
  let warns := (scan.map (gahWarn decode internal_dir fs)).flatten
  (models, warns, if models.isEmpty then Outcome.exited 1 else Outcome.ok)

/-- Boolean path-prefix test (`q` lies under directory `d` when
`pfx d q = true`). -/
def pfx : FPath → FPath → Bool
  | [], _ => true
  | _ :: _, [] => false
  | a :: as, b :: bs => if a = b then pfx as bs else false

/-! Concrete fixtures used by the counterexamples and witnesses. -/

def mtV2 : String := "application/vnd.docker.distribution.manifest.v2+json"

/-- A manifest with no layers and config digest `sha256:aaa`. -/
def manA : Manifest := { mediaType := mtV2, configDigest := "sha256:aaa", layers := [] }

/-- A concrete decoder: content `[1]` parses to `manA`, anything else is a
parse failure. -/
def decodeA : Content → Option Manifest := fun c => if c = [1] then some manA else none

def srcDir : FPath := ["src", "models"]
def dstDir : FPath := ["dst", "models"]

def modelA : ModelInfo :=
  { nspace := "library", model := "m", version := "latest",
    path := ["src", "models", "manifests", "registry.ollama.ai", "library", "m", "latest"],
    model_name := "m:latest" }

/-- `modelA`'s config blob path in the source registry. -/
def cfgBlobA : FPath := ["src", "models", "blobs", "sha256-aaa"]

/-- `modelA`'s config blob path in the destination registry. -/
def dstCfgBlobA : FPath := ["dst", "models", "blobs", "sha256-aaa"]

/-- A filesystem with the given contents, permissive access bits, trivial
ownership metadata, and no `ollama` identity. -/
def fsOf (f : FPath → Option Content) : FS :=
  { files := f, owner := fun _ => (0, 0), mode := fun _ => 0,
    accessW := fun _ => true, accessR := fun _ => true, accessX := fun _ => true,
    ollamaIds := none }

/-- Source registry holding `modelA`'s manifest and config blob. -/
def fsA : FS := fsOf (fun p =>
  if p = modelA.path then some [1] else if p = cfgBlobA then some [2] else none)

/-- Source registry holding only `modelA`'s manifest: its config blob is
missing. -/
def fsManifestOnly : FS := fsOf (fun p => if p = modelA.path then some [1] else none)

def fsEmpty : FS := fsOf (fun _ => none)

/-- Like `fsA` but with every `os.access` query answering false. -/
def fsNoPerm : FS :=
  { fsA with accessW := fun _ => false, accessR := fun _ => false, accessX := fun _ => false }

/-- Another model whose hash list contains `modelA`'s config digest. -/
def modelBshared : ModelInfo :=
  { nspace := "library", model := "b", version := "latest",
    path := ["src", "models", "manifests", "registry.ollama.ai", "library", "b", "latest"],
    model_name := "b:latest", hashes := some ["sha256-aaa"] }

/-- Another model whose hash list contains the string `"latest"`, which is
also the basename of `modelA`'s manifest file. -/
def modelBtag : ModelInfo :=
  { nspace := "library", model := "b", version := "latest",
    path := ["src", "models", "manifests", "registry.ollama.ai", "library", "b", "latest"],
    model_name := "b:latest", hashes := some ["latest"] }

def scanE1 : ScanEntry := { nspace := "library", model := "m", version := "latest" }
def scanE2 : ScanEntry := { nspace := "library", model := "g", version := "latest" }

/-- Registry for the bulk-index fixture: `scanE1`'s manifest is unparsable
(content `[9]`), `scanE2`'s parses. -/
def fsScan : FS := fsOf (fun p =>
  if p = versionPath srcDir scanE1 then some [9]
  else if p = versionPath srcDir scanE2 then some [1] else none)

/-- Destination already holds a same-size config blob (content `[7]`,
source content `[2]`). -/
def fsC6 : FS := fsOf (fun p =>
  if p = cfgBlobA then some [2] else if p = dstCfgBlobA then some [7] else none)

/-! Basic lookup lemmas for the filesystem operations. -/

theorem FS.files_write (fs : FS) (p : FPath) (c : Content) (q : FPath) :
    (fs.write p c).files q = if q = p then some c else fs.files q := rfl

theorem FS.owner_write (fs : FS) (p : FPath) (c : Content) :
    (fs.write p c).owner = fs.owner := rfl

theorem FS.mode_write (fs : FS) (p : FPath) (c : Content) :
    (fs.write p c).mode = fs.mode := rfl

theorem FS.files_remove (fs : FS) (p : FPath) (q : FPath) :
    (fs.remove p).files q = if q = p then none else fs.files q := rfl

theorem FS.files_chownmod (fs : FS) (p : FPath) (ids : Nat × Nat) (m : Nat) :
    (fs.chownmod p ids m).files = fs.files := rfl

theorem files_applyOllamaOwn (fs : FS) (p : FPath) (m : Nat) :
    (applyOllamaOwn fs p m).files = fs.files := by
  unfold applyOllamaOwn
  cases fs.ollamaIds <;> rfl

theorem owner_applyOllamaOwn_ne (fs : FS) (p : FPath) (m : Nat) (q : FPath)
    (h : q ≠ p) : (applyOllamaOwn fs p m).owner q = fs.owner q := by
  unfold applyOllamaOwn
  cases fs.ollamaIds with
  | none => rfl
  | some ids => simp [FS.chownmod, h]

theorem mode_applyOllamaOwn_ne (fs : FS) (p : FPath) (m : Nat) (q : FPath)
    (h : q ≠ p) : (applyOllamaOwn fs p m).mode q = fs.mode q := by
  unfold applyOllamaOwn
  cases fs.ollamaIds with
  | none => rfl
  | some ids => simp [FS.chownmod, h]

/-! Path-prefix lemmas. -/

theorem pfx_append (d r : FPath) : pfx d (d ++ r) = true := by
  induction d with
  | nil => rfl
  | cons a as ih =>
    show pfx (a :: as) (a :: (as ++ r)) = true
    unfold pfx
    rw [if_pos rfl]
    exact ih

theorem ne_append_of_pfx_false {d p : FPath} (h : pfx d p = false) (r : FPath) :
    p ≠ d ++ r := by
  intro he
  rw [he, pfx_append] at h
  cases h

theorem pfx_comparable : ∀ (c a b : FPath), pfx a c = true → pfx b c = true →
    pfx a b = true ∨ pfx b a = true := by
  intro c
  induction c with
  | nil =>
    intro a b ha hb
    cases a with
    | nil => left; rfl
    | cons x as => simp [pfx] at ha
  | cons z cs ih =>
    intro a b ha hb
    cases a with
    | nil => left; rfl
    | cons x as =>
      cases b with
      | nil => right; rfl
      | cons y bs =>
        simp only [pfx] at ha hb
        by_cases hxz : x = z
        · by_cases hyz : y = z
          · subst hxz; subst hyz
            simp only [if_pos rfl] at ha hb
            simpa [pfx] using ih as bs ha hb
          · rw [if_neg hyz] at hb; cases hb
        · rw [if_neg hxz] at ha; cases ha

theorem dropLast_append_ne (l : FPath) (r : FPath) (hr : r ≠ []) :
    (l ++ r).dropLast = l ++ r.dropLast := by
  rcases List.exists_cons_of_ne_nil hr with ⟨b, bs, hbs⟩
  subst hbs
  exact List.dropLast_append_cons

theorem basenameD_append₂ (l : FPath) (a b : String) :
    basenameD (l ++ [a, b]) = b := by
  unfold basenameD
  rw [show l ++ [a, b] = (l ++ [a]) ++ [b] by simp, List.getLastD_concat]

/-! The destination path of every transferred file lies under the
destination registry. -/

theorem destPath_eq_append (to_dir : FPath) (model : ModelInfo) (f : FileEntry) :
    ∃ s, s ≠ [] ∧ destPath to_dir model f = to_dir ++ s := by
  unfold destPath manifestDest
  by_cases h : f.is_manifest
  · exact ⟨["manifests", "registry.ollama.ai", model.nspace, model.model, model.version],
      by simp, by rw [if_pos h]⟩
  · exact ⟨["blobs", f.filename], by simp, by rw [if_neg h]⟩

/-! `copyAction` lookups. -/

theorem copyAction_files (to_dir : FPath) (model : ModelInfo) (fs0 : FS)
    (f : FileEntry) (q : FPath) :
    (copyAction to_dir model fs0 f).files q =
      if q = destPath to_dir model f then some ((fs0.files f.filepath).getD [])
      else fs0.files q := by
  unfold copyAction
  by_cases hM : managedInstall to_dir <;>
    simp [hM, files_applyOllamaOwn, FS.files_write]

theorem copyAction_owner_ne (to_dir : FPath) (model : ModelInfo) (fs0 : FS)
    (f : FileEntry) (q : FPath)
    (h1 : q ≠ destPath to_dir model f)
    (h2 : q ≠ (destPath to_dir model f).dropLast) :
    (copyAction to_dir model fs0 f).owner q = fs0.owner q := by
  unfold copyAction
  cases hM : managedInstall to_dir with
  | false => simp [hM, FS.write]
  | true =>
    simp only [hM, if_true]
    rw [owner_applyOllamaOwn_ne _ _ _ _ h1, FS.owner_write,
      owner_applyOllamaOwn_ne _ _ _ _ h2]

theorem copyAction_mode_ne (to_dir : FPath) (model : ModelInfo) (fs0 : FS)
    (f : FileEntry) (q : FPath)
    (h1 : q ≠ destPath to_dir model f)
    (h2 : q ≠ (destPath to_dir model f).dropLast) :
    (copyAction to_dir model fs0 f).mode q = fs0.mode q := by
  unfold copyAction
  cases hM : managedInstall to_dir with
  | false => simp [hM, FS.write]
  | true =>
    simp only [hM, if_true]
    rw [mode_applyOllamaOwn_ne _ _ _ _ h1, FS.mode_write,
      mode_applyOllamaOwn_ne _ _ _ _ h2]

/-! Frame lemmas: one copy-loop iteration only touches paths under the
destination registry. -/

theorem copyFileStep_frame (to_dir : FPath) (model : ModelInfo) (ar : Bool)
    (acc : FS × List LogEntry) (f : FileEntry) (p : FPath)
    (hp : pfx to_dir p = false) :
    ((copyFileStep to_dir model ar acc f).1.files p = acc.1.files p) ∧
    ((copyFileStep to_dir model ar acc f).1.owner p = acc.1.owner p) ∧
    ((copyFileStep to_dir model ar acc f).1.mode p = acc.1.mode p) := by
  obtain ⟨s, hs, hd⟩ := destPath_eq_append to_dir model f
  have hne1 : p ≠ destPath to_dir model f := by
    rw [hd]; exact ne_append_of_pfx_false hp s
  have hne2 : p ≠ (destPath to_dir model f).dropLast := by
    rw [hd, dropLast_append_ne to_dir s hs]
    exact ne_append_of_pfx_false hp s.dropLast
  have hfiles : (copyAction to_dir model acc.1 f).files p = acc.1.files p := by
    rw [copyAction_files, if_neg hne1]
  have hown : (copyAction to_dir model acc.1 f).owner p = acc.1.owner p :=
    copyAction_owner_ne to_dir model acc.1 f p hne1 hne2
  have hmode : (copyAction to_dir model acc.1 f).mode p = acc.1.mode p :=
    copyAction_mode_ne to_dir model acc.1 f p hne1 hne2
  unfold copyFileStep
  split
  · split
    · split
      · exact ⟨hfiles, hown, hmode⟩
      · exact ⟨rfl, rfl, rfl⟩
    · exact ⟨hfiles, hown, hmode⟩
  · exact ⟨hfiles, hown, hmode⟩

theorem copyFold_frame (to_dir : FPath) (model : ModelInfo) (ar : Bool)
    (fd : List FileEntry) (acc : FS × List LogEntry) (p : FPath)
    (hp : pfx to_dir p = false) :
    ((fd.foldl (copyFileStep to_dir model ar) acc).1.files p = acc.1.files p) ∧
    ((fd.foldl (copyFileStep to_dir model ar) acc).1.owner p = acc.1.owner p) ∧
    ((fd.foldl (copyFileStep to_dir model ar) acc).1.mode p = acc.1.mode p) := by
  induction fd generalizing acc with
  | nil => exact ⟨rfl, rfl, rfl⟩
  | cons f fd ih =>
    have hstep := copyFileStep_frame to_dir model ar acc f p hp
    have hrest := ih (copyFileStep to_dir model ar acc f)
    simp only [List.foldl_cons]
    exact ⟨hrest.1.trans hstep.1, hrest.2.1.trans hstep.2.1, hrest.2.2.trans hstep.2.2⟩

/-- Case analysis on `copy_model`: its resulting filesystem is either the
input unchanged (an exit or a skipped model) or the result of the copy
loop over `copyFilesData`. -/
theorem copy_model_fst_cases (decode : Content → Option Manifest)
    (from_dir to_dir : FPath) (model : ModelInfo) (ar : Bool) (fs : FS) :
    (copy_model decode from_dir to_dir model ar fs).1 = fs ∨
    ∃ manifest, decode ((fs.files model.path).getD []) = some manifest ∧
      (copy_model decode from_dir to_dir model ar fs).1 =
        ((copyFilesData from_dir model manifest).foldl (copyFileStep to_dir model ar)
          (fs, [LogEntry.copyingModel model.model_name])).1 := by
  unfold copy_model
  by_cases h : path_check fs model.path
  · simp only [h, if_true]
    cases hdec : decode ((fs.files model.path).getD []) with
    | none => left; rfl
    | some manifest =>
      by_cases hmt : manifest.mediaType ∈ allowedMediaTypes
      · simp only [hmt, if_true]
        cases hfind : (copyFilesData from_dir model manifest).find?
            (fun f => !(path_check fs f.filepath)) with
        | some f => left; simp [hfind]
        | none => right; exact ⟨manifest, rfl, by simp [hfind]⟩
      · left; simp [hmt]
  · left; simp [h]

/-- Claim C10: a copy invocation never modifies, creates or deletes any
file, ownership or mode outside the destination registry: every path whose
content, owner or mode differs after `copy_model` lies under `to_dir`
(in particular no file under the source registry is touched, since a path
under a source registry that is not itself under the destination registry
is left unchanged). -/
theorem claim10_copy_frame (decode : Content → Option Manifest)
    (from_dir to_dir : FPath) (model : ModelInfo) (ar : Bool) (fs : FS) (p : FPath)
    (hp : pfx to_dir p = false) :
    ((copy_model decode from_dir to_dir model ar fs).1.files p = fs.files p) ∧
    ((copy_model decode from_dir to_dir model ar fs).1.owner p = fs.owner p) ∧
    ((copy_model decode from_dir to_dir model ar fs).1.mode p = fs.mode p) := by
  rcases copy_model_fst_cases decode from_dir to_dir model ar fs with h | ⟨manifest, _, h⟩
  · rw [h]; exact ⟨rfl, rfl, rfl⟩
  · rw [h]; exact copyFold_frame to_dir model ar _ _ p hp

/-- Witness for C10 at a concrete copy. -/
theorem claim10_witness :
    pfx dstDir ["probe"] = false ∧
    (((copy_model decodeA srcDir dstDir modelA false fsA).1.files ["probe"]
        = fsA.files ["probe"]) ∧
     ((copy_model decodeA srcDir dstDir modelA false fsA).1.owner ["probe"]
        = fsA.owner ["probe"]) ∧
     ((copy_model decodeA srcDir dstDir modelA false fsA).1.mode ["probe"]
        = fsA.mode ["probe"])) :=
  ⟨by decide, claim10_copy_frame decodeA srcDir dstDir modelA false fsA ["probe"] (by decide)⟩

/-! Delete-loop step lemmas. -/

theorem deleteFileStep_clone_pos (ah : List ModelInfo) (acc : FS × List LogEntry)
    (f : FileEntry) (h : cloneUsers ah f.filename ≠ []) :
    deleteFileStep ah acc f =
      (acc.1, acc.2 ++ [LogEntry.skippedShared f.filename (cloneUsers ah f.filename)]) := by
  unfold deleteFileStep
  rw [if_pos]
  rw [Bool.not_eq_true', List.isEmpty_eq_false]
  exact h

theorem deleteFileStep_files_pres (ah : List ModelInfo) (acc : FS × List LogEntry)
    (f : FileEntry) (p : FPath) (hne : p ≠ f.filepath) :
    (deleteFileStep ah acc f).1.files p = acc.1.files p := by
  unfold deleteFileStep
  split
  · rfl
  · split
    · rw [FS.files_remove, if_neg hne]
    · rfl

theorem deleteFileStep_files_none (ah : List ModelInfo) (acc : FS × List LogEntry)
    (f : FileEntry) (p : FPath) (h : acc.1.files p = none) :
    (deleteFileStep ah acc f).1.files p = none := by
  unfold deleteFileStep
  split
  · exact h
  · split
    · rw [FS.files_remove]
      split
      · rfl
      · exact h
    · exact h

theorem deleteFileStep_log_mono (ah : List ModelInfo) (acc : FS × List LogEntry)
    (f : FileEntry) (x : LogEntry) (hx : x ∈ acc.2) : x ∈ (deleteFileStep ah acc f).2 := by
  unfold deleteFileStep
  split
  · exact List.mem_append_left _ hx
  · split
    · exact List.mem_append_left _ hx
    · exact List.mem_append_left _ hx

/-! Delete-loop fold lemmas. -/

theorem deleteFold_files_none (ah : List ModelInfo) (fd : List FileEntry)
    (acc : FS × List LogEntry) (p : FPath) (h : acc.1.files p = none) :
    ((fd.foldl (deleteFileStep ah) acc).1.files p = none) := by
  induction fd generalizing acc with
  | nil => exact h
  | cons f fd ih =>
    simp only [List.foldl_cons]
    exact ih _ (deleteFileStep_files_none ah acc f p h)

theorem deleteFold_log_mono (ah : List ModelInfo) (fd : List FileEntry)
    (acc : FS × List LogEntry) (x : LogEntry) (hx : x ∈ acc.2) :
    x ∈ (fd.foldl (deleteFileStep ah) acc).2 := by
  induction fd generalizing acc with
  | nil => exact hx
  | cons f fd ih =>
    simp only [List.foldl_cons]
    exact ih _ (deleteFileStep_log_mono ah acc f x hx)

theorem deleteFold_preserves (ah : List ModelInfo) (fd : List FileEntry)
    (acc : FS × List LogEntry) (p : FPath)
    (hfd : ∀ f ∈ fd, f.filename = basenameD f.filepath)
    (href : cloneUsers ah (basenameD p) ≠ []) :
    ((fd.foldl (deleteFileStep ah) acc).1.files p = acc.1.files p) := by
  induction fd generalizing acc with
  | nil => rfl
  | cons f fd ih =>
    simp only [List.foldl_cons]
    rw [ih _ (fun g hg => hfd g (List.mem_cons_of_mem f hg))]
    by_cases hc : cloneUsers ah f.filename = []
    · have hne : p ≠ f.filepath := by
        intro he
        apply href
        rw [he, ← hfd f (List.mem_cons_self f fd)]
        exact hc
      exact deleteFileStep_files_pres ah acc f p hne
    · rw [deleteFileStep_clone_pos ah acc f hc]

theorem deleteFold_skip_log (ah : List ModelInfo) (fd : List FileEntry)
    (acc : FS × List LogEntry) (f : FileEntry)
    (hf : f ∈ fd) (hc : cloneUsers ah f.filename ≠ []) :
    LogEntry.skippedShared f.filename (cloneUsers ah f.filename)
      ∈ (fd.foldl (deleteFileStep ah) acc).2 := by
  induction fd generalizing acc with
  | nil => cases hf
  | cons g gd ih =>
    simp only [List.foldl_cons]
    rcases List.mem_cons.mp hf with he | hm
    · subst he
      apply deleteFold_log_mono
      rw [deleteFileStep_clone_pos ah acc f hc]
      exact List.mem_append_right _ (List.mem_cons_self _ _)
    · exact ih _ hm

theorem deleteFilesData_filename (from_dir : FPath) (model : ModelInfo) (m : Manifest) :
    ∀ f ∈ deleteFilesData from_dir model m, f.filename = basenameD f.filepath := by
  intro f hf
  unfold deleteFilesData at hf
  rcases List.mem_cons.mp hf with he | hf2
  · subst he; rfl
  · rcases List.mem_cons.mp hf2 with he | hf3
    · subst he
      show dashDigest m.configDigest = basenameD (from_dir ++ ["blobs", dashDigest m.configDigest])
      rw [basenameD_append₂]
    · obtain ⟨l, _, he⟩ := List.mem_map.mp hf3
      subst he
      show dashDigest l.digest = basenameD (from_dir ++ ["blobs", dashDigest l.digest])
      rw [basenameD_append₂]

/-- Case analysis on `delete_model`: either it exits with the filesystem
unchanged, or it runs the delete loop over `deleteFilesData`. -/
theorem delete_model_cases (decode : Content → Option Manifest) (from_dir : FPath)
    (model : ModelInfo) (ah : List ModelInfo) (fs : FS) :
    ((delete_model decode from_dir model ah fs).1 = fs ∧
     (delete_model decode from_dir model ah fs).2.2 = Outcome.exited 1) ∨
    ∃ manifest, decode ((fs.files model.path).getD []) = some manifest ∧
      path_check fs model.path = true ∧
      (delete_model decode from_dir model ah fs).1 =
        ((deleteFilesData from_dir model manifest).foldl
          (deleteFileStep (ah.filter (fun h => h.model_name != model.model_name)))
          (fs, [])).1 ∧
      (delete_model decode from_dir model ah fs).2.1 =
        ((deleteFilesData from_dir model manifest).foldl
          (deleteFileStep (ah.filter (fun h => h.model_name != model.model_name)))
          (fs, [])).2 ++ [LogEntry.modelDeleted model.model_name] ∧
      (delete_model decode from_dir model ah fs).2.2 = Outcome.ok := by
  unfold delete_model
  by_cases h : path_check fs model.path
  · simp only [h, if_true]
    cases hdec : decode ((fs.files model.path).getD []) with
    | none => left; exact ⟨rfl, rfl⟩
    | some manifest =>
      cases hfind : (deleteFilesData from_dir model manifest).find?
          (fun f => !(permOk fs f.filepath)) with
      | some f => left; simp [hfind]
      | none =>
        right
        exact ⟨manifest, rfl, by simp [h], by simp [hfind], by simp [hfind], by simp [hfind]⟩
  · left; simp [h]

/-- Claim C1: deleting a model never removes a file whose basename (for a
blob, its digest-derived filename) is still referenced by another model in
the index with the deleted model's entries filtered out; and whenever the
reference set of a `files_data` record is non-empty and the deletion run
completes, the names of the referencing models are reported. -/
theorem claim1_delete_preserves_referenced (decode : Content → Option Manifest)
    (from_dir : FPath) (model : ModelInfo) (all_hashes : List ModelInfo) (fs : FS) :
    (∀ p, cloneUsers (all_hashes.filter (fun h => h.model_name != model.model_name))
        (basenameD p) ≠ [] →
      (delete_model decode from_dir model all_hashes fs).1.files p = fs.files p) ∧
    (∀ manifest f, decode ((fs.files model.path).getD []) = some manifest →
      (delete_model decode from_dir model all_hashes fs).2.2 = Outcome.ok →
      f ∈ deleteFilesData from_dir model manifest →
      cloneUsers (all_hashes.filter (fun h => h.model_name != model.model_name))
        f.filename ≠ [] →
      LogEntry.skippedShared f.filename
          (cloneUsers (all_hashes.filter (fun h => h.model_name != model.model_name))
            f.filename)
        ∈ (delete_model decode from_dir model all_hashes fs).2.1) := by
  constructor
  · intro p href
    rcases delete_model_cases decode from_dir model all_hashes fs with
      ⟨h1, _⟩ | ⟨manifest, _, _, h1, _, _⟩
    · rw [h1]
    · rw [h1]
      exact deleteFold_preserves _ _ _ p (deleteFilesData_filename from_dir model manifest) href
  · intro manifest f hdec hok hf hc
    rcases delete_model_cases decode from_dir model all_hashes fs with
      ⟨_, h2⟩ | ⟨manifest2, hdec2, _, _, hlog, _⟩
    · rw [h2] at hok
      exact Outcome.noConfusion hok
    · have hm : manifest2 = manifest := Option.some.inj (hdec2.symm.trans hdec)
      subst hm
      rw [hlog]
      exact List.mem_append_left _ (deleteFold_skip_log _ _ _ f hf hc)

/-- Witness for C1: `modelBshared` still references `modelA`'s config blob,
so deleting `modelA` keeps the blob and reports `b:latest`. -/
theorem claim1_witness :
    (cloneUsers ([modelBshared].filter (fun h => h.model_name != modelA.model_name))
        (basenameD cfgBlobA) ≠ []) ∧
    ((delete_model decodeA srcDir modelA [modelBshared] fsA).1.files cfgBlobA
      = fsA.files cfgBlobA) ∧
    (LogEntry.skippedShared (configEntry srcDir manA).filename
        (cloneUsers ([modelBshared].filter (fun h => h.model_name != modelA.model_name))
          (configEntry srcDir manA).filename)
      ∈ (delete_model decodeA srcDir modelA [modelBshared] fsA).2.1) := by
  refine ⟨by decide, ?_, ?_⟩
  · exact (claim1_delete_preserves_referenced decodeA srcDir modelA [modelBshared] fsA).1
      cfgBlobA (by decide)
  · exact (claim1_delete_preserves_referenced decodeA srcDir modelA [modelBshared] fsA).2
      manA (configEntry srcDir manA) (by decide) (by decide) (by decide) (by decide)

/-- Counterexample to C3 as stated: `modelBtag`'s hash list contains the
string `"latest"`, which equals the basename of `modelA`'s manifest file,
so a deletion of `modelA` whose permission preflight passes completes with
outcome ok but leaves `modelA`'s manifest file in place — the manifest is
not "always deleted once permissions pass". -/
theorem claim3_cex :
    ((delete_model decodeA srcDir modelA [modelBtag] fsA).2.2 = Outcome.ok) ∧
    ((delete_model decodeA srcDir modelA [modelBtag] fsA).1.files modelA.path = some [1]) ∧
    (LogEntry.skippedShared "latest" ["b:latest"]
      ∈ (delete_model decodeA srcDir modelA [modelBtag] fsA).2.1) := by
  decide

/-- Amended C3: once the permission preflight passes, the manifest file
goes through the same reference-skip check as the blobs, keyed on its
basename (the version tag): it is deleted iff no other model's hash list
contains that basename. -/
theorem claim3_manifest_refcheck (decode : Content → Option Manifest) (from_dir : FPath)
    (model : ModelInfo) (all_hashes : List ModelInfo) (fs : FS)
    (hok : (delete_model decode from_dir model all_hashes fs).2.2 = Outcome.ok) :
    (cloneUsers (all_hashes.filter (fun h => h.model_name != model.model_name))
        (basenameD model.path) = [] →
      (delete_model decode from_dir model all_hashes fs).1.files model.path = none) ∧
    (cloneUsers (all_hashes.filter (fun h => h.model_name != model.model_name))
        (basenameD model.path) ≠ [] →
      (delete_model decode from_dir model all_hashes fs).1.files model.path
        = fs.files model.path) := by
  rcases delete_model_cases decode from_dir model all_hashes fs with
    ⟨_, h2⟩ | ⟨manifest, hdec, hpc, h1, _, _⟩
  · rw [h2] at hok
    exact Outcome.noConfusion hok
  · constructor
    · intro hc
      rw [h1, deleteFilesData, List.foldl_cons]
      apply deleteFold_files_none
      have hcond1 : ¬((!(cloneUsers
          (all_hashes.filter (fun h => h.model_name != model.model_name))
          (manifestEntry model).filename).isEmpty) = true) := by
        have hclone : cloneUsers
            (all_hashes.filter (fun h => h.model_name != model.model_name))
            (manifestEntry model).filename = [] := hc
        rw [hclone]
        simp
      have hsome : (((fs, ([] : List LogEntry)).1.files
          (manifestEntry model).filepath).isSome = true) := hpc
      unfold deleteFileStep
      rw [if_neg hcond1, if_pos hsome, FS.files_remove,
        if_pos (show model.path = (manifestEntry model).filepath from rfl)]
    · intro hc
      rw [h1]
      exact deleteFold_preserves _ _ _ _ (deleteFilesData_filename from_dir model manifest) hc

/-- Witness for the amended C3: with no other model referencing the
basename, the manifest file is removed. -/
theorem claim3_witness :
    ((delete_model decodeA srcDir modelA [] fsA).2.2 = Outcome.ok) ∧
    (cloneUsers (([] : List ModelInfo).filter (fun h => h.model_name != modelA.model_name))
        (basenameD modelA.path) = []) ∧
    ((delete_model decodeA srcDir modelA [] fsA).1.files modelA.path = none) := by
  refine ⟨by decide, by decide, ?_⟩
  exact (claim3_manifest_refcheck decodeA srcDir modelA [] fsA (by decide)).1 (by decide)

/-- The Boolean permission preflight test unfolded to a proposition. -/
theorem permOk_iff (fs : FS) (p : FPath) :
    permOk fs p = true ↔
      (fs.accessW p = true ∨
       (fs.accessR p.dropLast = true ∧ fs.accessX p.dropLast = true ∧
        fs.accessW p.dropLast = true)) := by
  unfold permOk
  rw [Bool.or_eq_true, Bool.and_eq_true, Bool.and_eq_true, and_assoc]

/-- Claim C5: the deletion preflight checks every target file; a file
passes iff it is writable or its parent directory is readable, searchable
and writable; if any file fails, the whole deletion aborts with zero files
removed, and if all pass the deletion completes. -/
theorem claim5_perm_preflight (decode : Content → Option Manifest) (from_dir : FPath)
    (model : ModelInfo) (ah : List ModelInfo) (fs : FS) (c : Content) (manifest : Manifest)
    (h1 : fs.files model.path = some c) (h2 : decode c = some manifest) :
    ((∃ f ∈ deleteFilesData from_dir model manifest,
        ¬(fs.accessW f.filepath = true ∨
          (fs.accessR f.filepath.dropLast = true ∧ fs.accessX f.filepath.dropLast = true ∧
           fs.accessW f.filepath.dropLast = true))) →
      ((delete_model decode from_dir model ah fs).1 = fs ∧
       (delete_model decode from_dir model ah fs).2.2 = Outcome.exited 1)) ∧
    ((∀ f ∈ deleteFilesData from_dir model manifest,
        (fs.accessW f.filepath = true ∨
         (fs.accessR f.filepath.dropLast = true ∧ fs.accessX f.filepath.dropLast = true ∧
          fs.accessW f.filepath.dropLast = true))) →
      (delete_model decode from_dir model ah fs).2.2 = Outcome.ok) := by
  have hpc : path_check fs model.path = true := by
    unfold path_check
    rw [h1]
    rfl
  constructor
  · rintro ⟨f, hf, hcond⟩
    have hfs : ((deleteFilesData from_dir model manifest).find?
        (fun f => !(permOk fs f.filepath))).isSome = true := by
      rw [List.find?_isSome]
      refine ⟨f, hf, ?_⟩
      cases hpk : permOk fs f.filepath with
      | false => rfl
      | true => exact absurd ((permOk_iff fs f.filepath).mp hpk) hcond
    obtain ⟨g, hg⟩ := Option.isSome_iff_exists.mp hfs
    unfold delete_model
    simp only [hpc, if_true, h1, Option.getD_some, h2, hg]
    refine ⟨?_, ?_⟩ <;> first | rfl | trivial
  · intro hall
    have hnone : (deleteFilesData from_dir model manifest).find?
        (fun f => !(permOk fs f.filepath)) = none := by
      rw [List.find?_eq_none]
      intro f hf
      have hpk := (permOk_iff fs f.filepath).mpr (hall f hf)
      simp [hpk]
    unfold delete_model
    simp only [hpc, if_true, h1, Option.getD_some, h2, hnone]

/-- Counterexample to C4 as stated: when the manifest file itself is
missing from the source, `copy_model` exits the invocation with code 1
(operations.py lines 27-29) instead of skipping the model with a warning
and continuing. -/
theorem claim4_cex :
    ((copy_model decodeA srcDir dstDir modelA false fsEmpty).2.2 = Outcome.exited 1) ∧
    ((copy_model decodeA srcDir dstDir modelA false fsEmpty).2.2 ≠ Outcome.skippedModel) ∧
    (LogEntry.skippingModel modelA.model_name
      ∉ (copy_model decodeA srcDir dstDir modelA false fsEmpty).2.1) := by
  decide

/-- Amended C4: if any source blob file (config or layer) of the transfer
set is missing, the whole model transfer is skipped with a warning, no
file is copied, and the invocation continues; if the manifest file itself
is missing, the invocation aborts with exit code 1 (also copying nothing). -/
theorem claim4_missing_file (decode : Content → Option Manifest)
    (from_dir to_dir : FPath) (model : ModelInfo) (ar : Bool) (fs : FS)
    (c : Content) (manifest : Manifest)
    (h1 : fs.files model.path = some c) (h2 : decode c = some manifest)
    (h3 : manifest.mediaType ∈ allowedMediaTypes) :
    ((∃ f ∈ copyFilesData from_dir model manifest, fs.files f.filepath = none) →
      ((copy_model decode from_dir to_dir model ar fs).1 = fs ∧
       (copy_model decode from_dir to_dir model ar fs).2.2 = Outcome.skippedModel ∧
       LogEntry.skippingModel model.model_name
         ∈ (copy_model decode from_dir to_dir model ar fs).2.1)) ∧
    (∀ fs2 : FS, fs2.files model.path = none →
      ((copy_model decode from_dir to_dir model ar fs2).2.2 = Outcome.exited 1 ∧
       (copy_model decode from_dir to_dir model ar fs2).1 = fs2)) := by
  constructor
  · rintro ⟨f, hf, hmiss⟩
    have hpc : path_check fs model.path = true := by
      unfold path_check; rw [h1]; rfl
    have hfind : ((copyFilesData from_dir model manifest).find?
        (fun f => !(path_check fs f.filepath))).isSome = true := by
      rw [List.find?_isSome]
      refine ⟨f, hf, ?_⟩
      unfold path_check
      rw [hmiss]
      rfl
    obtain ⟨g, hg⟩ := Option.isSome_iff_exists.mp hfind
    unfold copy_model
    simp only [hpc, if_true, h1, Option.getD_some, h2]
    rw [if_pos h3]
    simp only [hg]
    refine ⟨?_, ?_, ?_⟩
    · trivial
    · trivial
    · simp
  · intro fs2 h0
    have hpc2 : path_check fs2 model.path = false := by
      unfold path_check; rw [h0]; rfl
    unfold copy_model
    simp only [hpc2]
    exact ⟨rfl, rfl⟩

/-- Witness for the amended C4 at a concrete missing config blob. -/
theorem claim4_witness :
    fsManifestOnly.files modelA.path = some [1] ∧ decodeA [1] = some manA ∧
    manA.mediaType ∈ allowedMediaTypes ∧
    (∃ f ∈ copyFilesData srcDir modelA manA, fsManifestOnly.files f.filepath = none) ∧
    ((copy_model decodeA srcDir dstDir modelA false fsManifestOnly).1 = fsManifestOnly ∧
     (copy_model decodeA srcDir dstDir modelA false fsManifestOnly).2.2 = Outcome.skippedModel ∧
     LogEntry.skippingModel modelA.model_name
       ∈ (copy_model decodeA srcDir dstDir modelA false fsManifestOnly).2.1) := by
  refine ⟨by decide, by decide, by decide, by decide, ?_⟩
  exact (claim4_missing_file decodeA srcDir dstDir modelA false fsManifestOnly [1] manA
    (by decide) (by decide) (by decide)).1 (by decide)

/-! Existence of destination files after the copy loop. -/

theorem copyFileStep_isSome_mono (to_dir : FPath) (model : ModelInfo) (ar : Bool)
    (acc : FS × List LogEntry) (f : FileEntry) (q : FPath)
    (h : (acc.1.files q).isSome = true) :
    ((copyFileStep to_dir model ar acc f).1.files q).isSome = true := by
  unfold copyFileStep
  split
  · split
    · split
      · rw [copyAction_files]
        split
        · rfl
        · exact h
      · exact h
    · rw [copyAction_files]
      split
      · rfl
      · exact h
  · rw [copyAction_files]
    split
    · rfl
    · exact h

theorem copyFileStep_dest_isSome (to_dir : FPath) (model : ModelInfo) (ar : Bool)
    (acc : FS × List LogEntry) (f : FileEntry) :
    ((copyFileStep to_dir model ar acc f).1.files (destPath to_dir model f)).isSome
      = true := by
  unfold copyFileStep
  by_cases h1 : path_check acc.1 (destPath to_dir model f)
  · simp only [h1, if_true]
    by_cases h2 : getsize acc.1 f.filepath = getsize acc.1 (destPath to_dir model f)
    · simp only [h2, if_true]
      cases ar with
      | true =>
        simp only [if_true]
        rw [copyAction_files, if_pos rfl]
        rfl
      | false => exact h1
    · rw [if_neg h2]
      rw [copyAction_files, if_pos rfl]
      rfl
  · rw [if_neg h1]
    rw [copyAction_files, if_pos rfl]
    rfl

theorem copyFold_isSome_mono (to_dir : FPath) (model : ModelInfo) (ar : Bool)
    (fd : List FileEntry) (acc : FS × List LogEntry) (q : FPath)
    (h : (acc.1.files q).isSome = true) :
    (((fd.foldl (copyFileStep to_dir model ar) acc).1.files q).isSome = true) := by
  induction fd generalizing acc with
  | nil => exact h
  | cons g gd ih =>
    simp only [List.foldl_cons]
    exact ih _ (copyFileStep_isSome_mono to_dir model ar acc g q h)

theorem copyFold_dest_isSome (to_dir : FPath) (model : ModelInfo) (ar : Bool)
    (fd : List FileEntry) (acc : FS × List LogEntry) (f : FileEntry) (hf : f ∈ fd) :
    (((fd.foldl (copyFileStep to_dir model ar) acc).1.files
      (destPath to_dir model f)).isSome = true) := by
  induction fd generalizing acc with
  | nil => cases hf
  | cons g gd ih =>
    simp only [List.foldl_cons]
    rcases List.mem_cons.mp hf with he | hm
    · subst he
      exact copyFold_isSome_mono to_dir model ar gd _ _
        (copyFileStep_dest_isSome to_dir model ar acc f)
    · exact ih _ hm

/-- When `copy_model` reports outcome ok, it ran the copy loop over
`copyFilesData` for the decoded manifest, with every source file present. -/
theorem copy_model_ok_fold (decode : Content → Option Manifest)
    (from_dir to_dir : FPath) (model : ModelInfo) (ar : Bool) (fs : FS)
    (c : Content) (manifest : Manifest)
    (h1 : fs.files model.path = some c) (h2 : decode c = some manifest)
    (hok : (copy_model decode from_dir to_dir model ar fs).2.2 = Outcome.ok) :
    manifest.mediaType ∈ allowedMediaTypes ∧
    ((copyFilesData from_dir model manifest).find?
      (fun f => !(path_check fs f.filepath)) = none) ∧
    copy_model decode from_dir to_dir model ar fs =
      (((copyFilesData from_dir model manifest).foldl (copyFileStep to_dir model ar)
          (fs, [LogEntry.copyingModel model.model_name])).1,
       ((copyFilesData from_dir model manifest).foldl (copyFileStep to_dir model ar)
          (fs, [LogEntry.copyingModel model.model_name])).2
         ++ [LogEntry.modelCopied model.model_name to_dir],
       Outcome.ok) := by
  have hpc : path_check fs model.path = true := by
    unfold path_check; rw [h1]; rfl
  unfold copy_model at hok ⊢
  simp only [hpc, if_true, h1, Option.getD_some, h2] at hok ⊢
  by_cases h3 : manifest.mediaType ∈ allowedMediaTypes
  · rw [if_pos h3] at hok ⊢
    cases hfind : (copyFilesData from_dir model manifest).find?
        (fun f => !(path_check fs f.filepath)) with
    | some f =>
      rw [hfind] at hok
      simp at hok
    | none =>
      simp only [hfind] at hok ⊢
      refine ⟨h3, ?_, ?_⟩ <;> first | rfl | trivial
  · rw [if_neg h3] at hok
    simp at hok

/-- Counterexample to C2 as stated: `modelA`'s config blob is missing from
the source, so the transfer is skipped; `move_model` nevertheless runs the
deletion, which removes the manifest from the source even though the model
was never made present at the destination. -/
theorem claim2_cex :
    ((copy_model decodeA srcDir dstDir modelA false fsManifestOnly).2.2
       = Outcome.skippedModel) ∧
    ((move_model decodeA srcDir dstDir modelA [] false fsManifestOnly).2.2
       = Outcome.ok) ∧
    ((move_model decodeA srcDir dstDir modelA [] false fsManifestOnly).1.files
       modelA.path = none) ∧
    ((move_model decodeA srcDir dstDir modelA [] false fsManifestOnly).1.files
       (manifestDest dstDir modelA) = none) := by
  decide

/-- Amended C2: the transfer phase of `move_model` runs to completion (or
aborts the invocation) before any deletion step begins: if the copy exits,
`move_model` stops with the copy's state and no deletion occurs; and when
the copy completes with outcome ok, every file of the transfer set is
present at its destination path in the state the deletion starts from.
However (per the counterexample) a *skipped* transfer does not prevent the
deletion. -/
theorem claim2_move_order (decode : Content → Option Manifest) (from_dir to_dir : FPath)
    (model : ModelInfo) (ah : List ModelInfo) (ar : Bool) (fs : FS) :
    (∀ n, (copy_model decode from_dir to_dir model ar fs).2.2 = Outcome.exited n →
      move_model decode from_dir to_dir model ah ar fs =
        ((copy_model decode from_dir to_dir model ar fs).1,
         LogEntry.movingModel model.model_name
           :: (copy_model decode from_dir to_dir model ar fs).2.1,
         Outcome.exited n)) ∧
    ((copy_model decode from_dir to_dir model ar fs).2.2 = Outcome.ok →
      ∀ c manifest, fs.files model.path = some c → decode c = some manifest →
      ∀ f ∈ copyFilesData from_dir model manifest,
        (((copy_model decode from_dir to_dir model ar fs).1).files
          (destPath to_dir model f)).isSome = true) := by
  constructor
  · intro n hex
    unfold move_model
    simp only [hex]
  · intro hok c manifest h1 h2 f hf
    obtain ⟨_, _, heq⟩ :=
      copy_model_ok_fold decode from_dir to_dir model ar fs c manifest h1 h2 hok
    rw [heq]
    exact copyFold_dest_isSome to_dir model ar _ _ f hf

/-- Witness for the amended C2: an exiting copy stops the move before any
deletion. -/
theorem claim2_witness :
    ((copy_model decodeA srcDir dstDir modelA false fsEmpty).2.2 = Outcome.exited 1) ∧
    (move_model decodeA srcDir dstDir modelA [] false fsEmpty =
      ((copy_model decodeA srcDir dstDir modelA false fsEmpty).1,
       LogEntry.movingModel modelA.model_name
         :: (copy_model decodeA srcDir dstDir modelA false fsEmpty).2.1,
       Outcome.exited 1)) :=
  ⟨by decide, (claim2_move_order decodeA srcDir dstDir modelA [] false fsEmpty).1 1 (by decide)⟩

/-- Claim C6: for a transfer-set file whose destination already exists:
equal sizes with `always_replace` false → skipped entirely (state
unchanged, skip reported); equal sizes with `always_replace` true →
replaced with the source bytes; different sizes → replaced with the source
bytes regardless of `always_replace`. -/
theorem claim6_replace_policy (to_dir : FPath) (model : ModelInfo) (ar : Bool)
    (fs : FS) (log : List LogEntry) (f : FileEntry) (dc : Content)
    (hd : fs.files (destPath to_dir model f) = some dc) :
    ((getsize fs f.filepath = dc.length ∧ ar = false) →
       copyFileStep to_dir model ar (fs, log) f
         = (fs, log ++ [LogEntry.skippedExisting f.filename])) ∧
    ((getsize fs f.filepath = dc.length ∧ ar = true) →
       (copyFileStep to_dir model ar (fs, log) f).1.files (destPath to_dir model f)
         = some ((fs.files f.filepath).getD [])) ∧
    (getsize fs f.filepath ≠ dc.length →
       (copyFileStep to_dir model ar (fs, log) f).1.files (destPath to_dir model f)
         = some ((fs.files f.filepath).getD [])) := by
  have hpc : path_check fs (destPath to_dir model f) = true := by
    unfold path_check; rw [hd]; rfl
  have hsize : getsize fs (destPath to_dir model f) = dc.length := by
    unfold getsize; rw [hd]; rfl
  refine ⟨?_, ?_, ?_⟩
  · rintro ⟨hsz, har⟩
    subst har
    unfold copyFileStep
    simp only [hpc, if_true, hsize]
    rw [if_pos hsz]
    rfl
  · rintro ⟨hsz, har⟩
    subst har
    unfold copyFileStep
    simp only [hpc, if_true, hsize]
    rw [if_pos hsz]
    show (copyAction to_dir model fs f).files (destPath to_dir model f) = _
    rw [copyAction_files, if_pos rfl]
  · intro hsz
    unfold copyFileStep
    simp only [hpc, if_true, hsize]
    rw [if_neg hsz]
    show (copyAction to_dir model fs f).files (destPath to_dir model f) = _
    rw [copyAction_files, if_pos rfl]

/-- Witness for C6: a same-size destination with `always_replace` false is
skipped. -/
theorem claim6_witness :
    fsC6.files (destPath dstDir modelA (configEntry srcDir manA)) = some [7] ∧
    getsize fsC6 (configEntry srcDir manA).filepath = 1 ∧
    copyFileStep dstDir modelA false (fsC6, []) (configEntry srcDir manA)
      = (fsC6, [] ++ [LogEntry.skippedExisting (configEntry srcDir manA).filename]) := by
  refine ⟨by decide, by decide, ?_⟩
  exact (claim6_replace_policy dstDir modelA false fsC6 [] (configEntry srcDir manA) [7]
    (by decide)).1 ⟨by decide, rfl⟩

/-! Sorting lemmas for the copy transfer order. -/

theorem insertLayerDesc_perm (x : Layer) (l : List Layer) :
    (insertLayerDesc x l).Perm (x :: l) := by
  induction l with
  | nil => exact List.Perm.refl _
  | cons y ys ih =>
    unfold insertLayerDesc
    by_cases h : x.size < y.size
    · rw [if_pos h]
      exact (List.Perm.cons y ih).trans (List.Perm.swap x y ys)
    · rw [if_neg h]

theorem sortLayersDesc_perm (l : List Layer) : (sortLayersDesc l).Perm l := by
  induction l with
  | nil => exact List.Perm.refl _
  | cons x xs ih =>
    unfold sortLayersDesc
    exact (insertLayerDesc_perm x (sortLayersDesc xs)).trans (List.Perm.cons x ih)

theorem insertLayerDesc_sorted (x : Layer) (l : List Layer)
    (h : l.Pairwise (fun a b => b.size ≤ a.size)) :
    (insertLayerDesc x l).Pairwise (fun a b => b.size ≤ a.size) := by
  induction l with
  | nil => simp [insertLayerDesc]
  | cons y ys ih =>
    rcases List.pairwise_cons.mp h with ⟨hy, hys⟩
    unfold insertLayerDesc
    by_cases hxy : x.size < y.size
    · rw [if_pos hxy]
      rw [List.pairwise_cons]
      constructor
      · intro z hz
        have hz' : z = x ∨ z ∈ ys := by
          have hm := (insertLayerDesc_perm x ys).mem_iff.mp hz
          simpa using hm
        rcases hz' with rfl | hz'
        · exact le_of_lt hxy
        · exact hy z hz'
      · exact ih hys
    · rw [if_neg hxy]
      rw [List.pairwise_cons]
      constructor
      · intro z hz
        rcases List.mem_cons.mp hz with rfl | hz'
        · exact le_of_not_lt hxy
        · exact le_trans (hy z hz') (le_of_not_lt hxy)
      · exact h

theorem sortLayersDesc_sorted (l : List Layer) :
    (sortLayersDesc l).Pairwise (fun a b => b.size ≤ a.size) := by
  induction l with
  | nil => exact List.Pairwise.nil
  | cons x xs ih => exact insertLayerDesc_sorted x _ ih

/-- Claim C8: the copy transfer order is manifest first, then config blob,
then the layer blobs sorted largest-first by manifest-declared size (a
permutation of the manifest's layer list ordered by non-increasing size),
while the delete order keeps the manifest's own layer order. -/
theorem claim8_transfer_order (from_dir : FPath) (model : ModelInfo) (m : Manifest) :
    copyFilesData from_dir model m =
      manifestEntry model :: configEntry from_dir m ::
        (sortLayersDesc m.layers).map (layerEntry from_dir) ∧
    (sortLayersDesc m.layers).Pairwise (fun a b => b.size ≤ a.size) ∧
    (sortLayersDesc m.layers).Perm m.layers ∧
    deleteFilesData from_dir model m =
      manifestEntry model :: configEntry from_dir m ::
        m.layers.map (layerEntry from_dir) :=
  ⟨rfl, sortLayersDesc_sorted m.layers, sortLayersDesc_perm m.layers, rfl⟩

/-- Claim C9: a manifest that fails to parse is skipped with a warning
during bulk index building, and every other parseable manifest still
contributes its entry (non-fatal as long as any model resolves), whereas
the same parse failure during a targeted copy or delete exits the
invocation with code 1. -/
theorem claim9_parse_failure
    (decode : Content → Option Manifest) (dir : FPath) (scan : List ScanEntry)
    (fs : FS) (e : ScanEntry) (c : Content)
    (h1 : e ∈ scan) (h2 : fs.files (versionPath dir e) = some c) (h3 : decode c = none)
    (h4 : ∃ e2 ∈ scan, (gahModel decode dir fs e2).isSome = true) :
    ((get_all_hashes decode dir scan fs).2.2 = Outcome.ok) ∧
    (LogEntry.manifestReadError (displayName e.nspace e.model e.version)
       ∈ (get_all_hashes decode dir scan fs).2.1) ∧
    (∀ e2 ∈ scan, ∀ mi, gahModel decode dir fs e2 = some mi →
       mi ∈ (get_all_hashes decode dir scan fs).1) ∧
    (∀ (decode2 : Content → Option Manifest) (fd td : FPath) (model2 : ModelInfo)
       (ar : Bool) (fs2 : FS) (c2 : Content),
       fs2.files model2.path = some c2 → decode2 c2 = none →
       (copy_model decode2 fd td model2 ar fs2).2.2 = Outcome.exited 1) ∧
    (∀ (decode2 : Content → Option Manifest) (fd : FPath) (model2 : ModelInfo)
       (ah : List ModelInfo) (fs2 : FS) (c2 : Content),
       fs2.files model2.path = some c2 → decode2 c2 = none →
       (delete_model decode2 fd model2 ah fs2).2.2 = Outcome.exited 1) := by
  have hgah : gahModel decode dir fs e = none := by
    simp only [gahModel, h2, h3]
  obtain ⟨e2, he2, hsome⟩ := h4
  obtain ⟨mi0, hmi0⟩ := Option.isSome_iff_exists.mp hsome
  have hmem0 : mi0 ∈ scan.filterMap (gahModel decode dir fs) :=
    List.mem_filterMap.mpr ⟨e2, he2, hmi0⟩
  have hEmpty : (scan.filterMap (gahModel decode dir fs)).isEmpty = false :=
    List.isEmpty_eq_false.mpr (List.ne_nil_of_mem hmem0)
  refine ⟨?_, ?_, ?_, ?_, ?_⟩
  · simp [get_all_hashes, hEmpty]
  · show _ ∈ (scan.map (gahWarn decode dir fs)).flatten
    apply List.mem_flatten.mpr
    refine ⟨gahWarn decode dir fs e, List.mem_map_of_mem _ h1, ?_⟩
    unfold gahWarn
    rw [hgah]
    simp
  · intro e2' he2' mi hmi
    show mi ∈ scan.filterMap (gahModel decode dir fs)
    exact List.mem_filterMap.mpr ⟨e2', he2', hmi⟩
  · intro decode2 fd td model2 ar fs2 c2 ha hb
    have hpc : path_check fs2 model2.path = true := by
      unfold path_check; rw [ha]; rfl
    unfold copy_model
    simp only [hpc, if_true, ha, Option.getD_some, hb]
  · intro decode2 fd model2 ah fs2 c2 ha hb
    have hpc : path_check fs2 model2.path = true := by
      unfold path_check; rw [ha]; rfl
    unfold delete_model
    simp only [hpc, if_true, ha, Option.getD_some, hb]

/-- Witness for C9 on a two-model registry with one corrupt manifest. -/
theorem claim9_witness :
    scanE1 ∈ [scanE1, scanE2] ∧
    fsScan.files (versionPath srcDir scanE1) = some [9] ∧
    decodeA [9] = none ∧
    (∃ e2 ∈ [scanE1, scanE2], (gahModel decodeA srcDir fsScan e2).isSome = true) ∧
    ((get_all_hashes decodeA srcDir [scanE1, scanE2] fsScan).2.2 = Outcome.ok) ∧
    (LogEntry.manifestReadError (displayName scanE1.nspace scanE1.model scanE1.version)
       ∈ (get_all_hashes decodeA srcDir [scanE1, scanE2] fsScan).2.1) := by
  refine ⟨by decide, by decide, by decide, by decide, ?_, ?_⟩
  · exact (claim9_parse_failure decodeA srcDir [scanE1, scanE2] fsScan scanE1 [9]
      (by decide) (by decide) (by decide) (by decide)).1
  · exact (claim9_parse_failure decodeA srcDir [scanE1, scanE2] fsScan scanE1 [9]
      (by decide) (by decide) (by decide) (by decide)).2.1

/-! Structural lemmas about the copy transfer set, used for idempotence. -/

theorem bool_eq_false {b : Bool} (h : ¬ b = true) : b = false := by
  cases b
  · rfl
  · exact absurd rfl h

theorem pfx_append_false (a b : FPath) (hab : pfx a b = false) (hba : pfx b a = false)
    (r : FPath) : pfx a (b ++ r) = false := by
  cases h : pfx a (b ++ r) with
  | false => rfl
  | true =>
    rcases pfx_comparable (b ++ r) a b h (pfx_append b r) with h1 | h2
    · rw [hab] at h1; exact Bool.noConfusion h1
    · rw [hba] at h2; exact Bool.noConfusion h2

theorem copyFilesData_shape (from_dir : FPath) (model : ModelInfo) (m : Manifest) :
    ∀ f ∈ copyFilesData from_dir model m,
      f = manifestEntry model ∨
      (f.is_manifest = false ∧ f.filepath = from_dir ++ ["blobs", f.filename]) := by
  intro f hf
  unfold copyFilesData at hf
  rcases List.mem_cons.mp hf with rfl | hf2
  · left; rfl
  · rcases List.mem_cons.mp hf2 with rfl | hf3
    · right; exact ⟨rfl, rfl⟩
    · obtain ⟨l, _, rfl⟩ := List.mem_map.mp hf3
      right; exact ⟨rfl, rfl⟩

theorem copyFilesData_dest_inj (from_dir to_dir : FPath) (model : ModelInfo)
    (m : Manifest) :
    ∀ f ∈ copyFilesData from_dir model m, ∀ g ∈ copyFilesData from_dir model m,
      destPath to_dir model f = destPath to_dir model g → f.filepath = g.filepath := by
  intro f hf g hg hd
  rcases copyFilesData_shape from_dir model m f hf with rfl | ⟨hfm, hfp⟩
  · rcases copyFilesData_shape from_dir model m g hg with rfl | ⟨hgm, hgp⟩
    · rfl
    · exfalso
      unfold destPath at hd
      rw [if_pos (show (manifestEntry model).is_manifest = true from rfl),
        if_neg (by simp [hgm])] at hd
      unfold manifestDest at hd
      have hlen := congrArg List.length (List.append_cancel_left hd)
      simp at hlen
  · rcases copyFilesData_shape from_dir model m g hg with rfl | ⟨hgm, hgp⟩
    · exfalso
      unfold destPath at hd
      rw [if_neg (by simp [hfm]),
        if_pos (show (manifestEntry model).is_manifest = true from rfl)] at hd
      unfold manifestDest at hd
      have hlen := congrArg List.length (List.append_cancel_left hd)
      simp at hlen
    · unfold destPath at hd
      rw [if_neg (by simp [hfm]), if_neg (by simp [hgm])] at hd
      have h2 := List.append_cancel_left hd
      have hfn : f.filename = g.filename := by simpa using h2
      rw [hfp, hgp, hfn]

/-- One copy-loop iteration either leaves a path's content unchanged or
writes the source bytes to the destination path of the processed record. -/
theorem copyFileStep_files_cases (to_dir : FPath) (model : ModelInfo) (ar : Bool)
    (acc : FS × List LogEntry) (f : FileEntry) (q : FPath) :
    ((copyFileStep to_dir model ar acc f).1.files q = acc.1.files q) ∨
    (q = destPath to_dir model f ∧
     (copyFileStep to_dir model ar acc f).1.files q
       = some ((acc.1.files f.filepath).getD [])) := by
  unfold copyFileStep
  by_cases hq : q = destPath to_dir model f
  · split
    · split
      · split
        · right; exact ⟨hq, by rw [copyAction_files, if_pos hq]⟩
        · left; rfl
      · right; exact ⟨hq, by rw [copyAction_files, if_pos hq]⟩
    · right; exact ⟨hq, by rw [copyAction_files, if_pos hq]⟩
  · left
    split
    · split
      · split
        · rw [copyAction_files, if_neg hq]
        · rfl
      · rw [copyAction_files, if_neg hq]
    · rw [copyAction_files, if_neg hq]

/-- Invariant preservation along the copy loop: once the destination path
`q` holds content whose size equals the (stable) source `src0`'s size, it
keeps doing so, provided every later record writing to `q` copies from
`src0`. -/
theorem copyFold_keep (to_dir : FPath) (model : ModelInfo) (ar : Bool)
    (q src0 : FPath) (rest : List FileEntry) (st : FS × List LogEntry)
    (hsep : ∀ g ∈ rest, pfx to_dir g.filepath = false)
    (hq : ∀ g ∈ rest, destPath to_dir model g = q → g.filepath = src0)
    (hsrc0 : pfx to_dir src0 = false)
    (hinv : ∃ d, st.1.files q = some d ∧ d.length = getsize st.1 src0) :
    ∃ d, (rest.foldl (copyFileStep to_dir model ar) st).1.files q = some d ∧
      d.length = getsize st.1 src0 := by
  induction rest generalizing st with
  | nil => exact hinv
  | cons g gs ih =>
    simp only [List.foldl_cons]
    obtain ⟨d, hd1, hd2⟩ := hinv
    have hsg : getsize (copyFileStep to_dir model ar st g).1 src0 = getsize st.1 src0 := by
      unfold getsize
      rw [(copyFileStep_frame to_dir model ar st g src0 hsrc0).1]
    have hinv2 : ∃ d, (copyFileStep to_dir model ar st g).1.files q = some d ∧
        d.length = getsize (copyFileStep to_dir model ar st g).1 src0 := by
      rcases copyFileStep_files_cases to_dir model ar st g q with hcase | ⟨hqd, hcase⟩
      · exact ⟨d, by rw [hcase]; exact hd1, by rw [hsg]; exact hd2⟩
      · have hgsrc : g.filepath = src0 := hq g (List.mem_cons_self g gs) hqd.symm
        refine ⟨(st.1.files src0).getD [], ?_, ?_⟩
        · rw [hcase, hgsrc]
        · rw [hsg]; rfl
    obtain ⟨d', hd1', hd2'⟩ := ih (copyFileStep to_dir model ar st g)
      (fun x hx => hsep x (List.mem_cons_of_mem g hx))
      (fun x hx hdx => hq x (List.mem_cons_of_mem g hx) hdx)
      hinv2
    exact ⟨d', hd1', by rw [hd2', hsg]⟩

/-- Processing a record leaves its destination existing with content whose
byte size equals the source's current size (whether it skipped, replaced
or wrote fresh). -/
theorem copyFileStep_dest_post (to_dir : FPath) (model : ModelInfo) (ar : Bool)
    (acc : FS × List LogEntry) (f : FileEntry) :
    ∃ d, (copyFileStep to_dir model ar acc f).1.files (destPath to_dir model f)
        = some d ∧
      d.length = getsize acc.1 f.filepath := by
  unfold copyFileStep
  by_cases h1 : path_check acc.1 (destPath to_dir model f)
  · simp only [h1, if_true]
    by_cases h2 : getsize acc.1 f.filepath = getsize acc.1 (destPath to_dir model f)
    · rw [if_pos h2]
      cases ar with
      | true =>
        simp only [if_true]
        exact ⟨(acc.1.files f.filepath).getD [], by rw [copyAction_files, if_pos rfl], rfl⟩
      | false =>
        simp only [Bool.false_eq_true, if_false]
        obtain ⟨d, hd⟩ := Option.isSome_iff_exists.mp h1
        refine ⟨d, hd, ?_⟩
        rw [h2]
        unfold getsize
        rw [hd]
        rfl
    · rw [if_neg h2]
      exact ⟨(acc.1.files f.filepath).getD [], by rw [copyAction_files, if_pos rfl], rfl⟩
  · rw [if_neg h1]
    exact ⟨(acc.1.files f.filepath).getD [], by rw [copyAction_files, if_pos rfl], rfl⟩

/-- After the copy loop, every record's destination holds content whose
byte size equals the source file's (unchanged) size. -/
theorem copyFold_post (to_dir : FPath) (model : ModelInfo) (ar : Bool)
    (fd : List FileEntry) (acc : FS × List LogEntry)
    (hsep : ∀ f ∈ fd, pfx to_dir f.filepath = false)
    (hdup : ∀ f ∈ fd, ∀ g ∈ fd, destPath to_dir model f = destPath to_dir model g →
      f.filepath = g.filepath) :
    ∀ f ∈ fd, ∃ d, (fd.foldl (copyFileStep to_dir model ar) acc).1.files
        (destPath to_dir model f) = some d ∧
      d.length = getsize acc.1 f.filepath := by
  induction fd generalizing acc with
  | nil => intro f hf; cases hf
  | cons g gd ih =>
    intro f hf
    simp only [List.foldl_cons]
    have hsrc_pres : ∀ q, pfx to_dir q = false →
        (copyFileStep to_dir model ar acc g).1.files q = acc.1.files q :=
      fun q hqp => (copyFileStep_frame to_dir model ar acc g q hqp).1
    rcases List.mem_cons.mp hf with he | hm
    · subst he
      have hsg : getsize (copyFileStep to_dir model ar acc f).1 f.filepath
          = getsize acc.1 f.filepath := by
        unfold getsize
        rw [hsrc_pres f.filepath (hsep f hf)]
      obtain ⟨d0, hd0, hl0⟩ := copyFileStep_dest_post to_dir model ar acc f
      obtain ⟨d, hd1, hd2⟩ := copyFold_keep to_dir model ar (destPath to_dir model f)
        f.filepath gd (copyFileStep to_dir model ar acc f)
        (fun x hx => hsep x (List.mem_cons_of_mem f hx))
        (fun x hx hdx => hdup x (List.mem_cons_of_mem f hx) f hf hdx)
        (hsep f hf)
        ⟨d0, hd0, by rw [hsg]; exact hl0⟩
      exact ⟨d, hd1, by rw [hd2, hsg]⟩
    · obtain ⟨d, hd1, hd2⟩ := ih (copyFileStep to_dir model ar acc g)
        (fun x hx => hsep x (List.mem_cons_of_mem g hx))
        (fun x hx y hy hdxy =>
          hdup x (List.mem_cons_of_mem g hx) y (List.mem_cons_of_mem g hy) hdxy)
        f hm
      refine ⟨d, hd1, ?_⟩
      rw [hd2]
      unfold getsize
      rw [hsrc_pres f.filepath (hsep f hf)]

/-- A copy run in which every record's destination already exists with the
source's size and `always_replace` is false changes nothing and reports
every file as skipped. -/
theorem copyFold_allskip (to_dir : FPath) (model : ModelInfo)
    (fd : List FileEntry) (fs : FS) (log : List LogEntry)
    (h : ∀ f ∈ fd, ∃ d, fs.files (destPath to_dir model f) = some d ∧
      getsize fs f.filepath = d.length) :
    fd.foldl (copyFileStep to_dir model false) (fs, log)
      = (fs, log ++ fd.map (fun f => LogEntry.skippedExisting f.filename)) := by
  induction fd generalizing log with
  | nil => simp
  | cons f fd ih =>
    obtain ⟨d, hd1, hd2⟩ := h f (List.mem_cons_self f fd)
    have hpc : path_check fs (destPath to_dir model f) = true := by
      unfold path_check; rw [hd1]; rfl
    have hsz : getsize fs (destPath to_dir model f) = d.length := by
      unfold getsize; rw [hd1]; rfl
    have hstep : copyFileStep to_dir model false (fs, log) f
        = (fs, log ++ [LogEntry.skippedExisting f.filename]) := by
      unfold copyFileStep
      simp only [hpc, if_true, hsz]
      rw [if_pos hd2]
      rfl
    simp only [List.foldl_cons, hstep]
    rw [ih (log ++ [LogEntry.skippedExisting f.filename])
      (fun g hg => h g (List.mem_cons_of_mem f hg))]
    simp

/-- Claim C7: copy is idempotent. If a copy with `always_replace = false`
completes with outcome ok (for distinct source and destination registries,
with the model's manifest stored under the source registry), then running
the same copy again leaves the filesystem exactly as after the first run,
completes with outcome ok, and reports every file of the transfer set as
skipped. -/
theorem claim7_copy_idempotent (decode : Content → Option Manifest)
    (from_dir to_dir : FPath) (model : ModelInfo) (fs : FS)
    (hft : pfx from_dir to_dir = false) (htf : pfx to_dir from_dir = false)
    (hmp : pfx from_dir model.path = true)
    (hok : (copy_model decode from_dir to_dir model false fs).2.2 = Outcome.ok) :
    ((copy_model decode from_dir to_dir model false
        ((copy_model decode from_dir to_dir model false fs).1)).1
      = (copy_model decode from_dir to_dir model false fs).1) ∧
    ((copy_model decode from_dir to_dir model false
        ((copy_model decode from_dir to_dir model false fs).1)).2.2 = Outcome.ok) ∧
    (∀ c manifest, fs.files model.path = some c → decode c = some manifest →
      ∀ f ∈ copyFilesData from_dir model manifest,
        LogEntry.skippedExisting f.filename
          ∈ (copy_model decode from_dir to_dir model false
              ((copy_model decode from_dir to_dir model false fs).1)).2.1) := by
  cases hfm : fs.files model.path with
  | none =>
    exfalso
    have hpc : path_check fs model.path = false := by
      unfold path_check; rw [hfm]; rfl
    unfold copy_model at hok
    simp [hpc] at hok
  | some c =>
    cases hdec : decode c with
    | none =>
      exfalso
      have hpc : path_check fs model.path = true := by
        unfold path_check; rw [hfm]; rfl
      unfold copy_model at hok
      simp only [hpc, if_true, hfm, Option.getD_some, hdec] at hok
      exact Outcome.noConfusion hok
    | some manifest =>
      obtain ⟨hmt, hfind, heq⟩ :=
        copy_model_ok_fold decode from_dir to_dir model false fs c manifest hfm hdec hok
      set fs1 := (copy_model decode from_dir to_dir model false fs).1 with hfs1
      have hto_mp : pfx to_dir model.path = false := by
        apply bool_eq_false
        intro h
        rcases pfx_comparable model.path to_dir from_dir h hmp with h1 | h2
        · rw [htf] at h1; exact Bool.noConfusion h1
        · rw [hft] at h2; exact Bool.noConfusion h2
      have hsep : ∀ f ∈ copyFilesData from_dir model manifest,
          pfx to_dir f.filepath = false := by
        intro f hf
        rcases copyFilesData_shape from_dir model manifest f hf with rfl | ⟨_, hfp⟩
        · exact hto_mp
        · rw [hfp]; exact pfx_append_false to_dir from_dir htf hft ["blobs", f.filename]
      have hframe1 : ∀ q, pfx to_dir q = false → fs1.files q = fs.files q := by
        intro q hq
        rw [hfs1, heq]
        exact (copyFold_frame to_dir model false _ _ q hq).1
      have hfm1 : fs1.files model.path = some c := by
        rw [hframe1 model.path hto_mp]; exact hfm
      have hpost := copyFold_post to_dir model false (copyFilesData from_dir model manifest)
        (fs, [LogEntry.copyingModel model.model_name]) hsep
        (copyFilesData_dest_inj from_dir to_dir model manifest)
      have hskipcond : ∀ f ∈ copyFilesData from_dir model manifest,
          ∃ d, fs1.files (destPath to_dir model f) = some d ∧
            getsize fs1 f.filepath = d.length := by
        intro f hf
        obtain ⟨d, hd1, hd2⟩ := hpost f hf
        refine ⟨d, ?_, ?_⟩
        · rw [hfs1, heq]; exact hd1
        · have hss : getsize fs1 f.filepath = getsize fs f.filepath := by
            unfold getsize
            rw [hframe1 f.filepath (hsep f hf)]
          rw [hss]
          exact hd2.symm
      have hpc1 : path_check fs1 model.path = true := by
        unfold path_check; rw [hfm1]; rfl
      have hfind1 : (copyFilesData from_dir model manifest).find?
          (fun f => !(path_check fs1 f.filepath)) = none := by
        rw [List.find?_eq_none]
        intro f hf
        have h0 := List.find?_eq_none.mp hfind f hf
        have h0' : path_check fs f.filepath = true := by
          cases hb : path_check fs f.filepath with
          | true => rfl
          | false => exact absurd (by rw [hb]; rfl) h0
        have h1' : path_check fs1 f.filepath = true := by
          unfold path_check at h0' ⊢
          rw [hframe1 f.filepath (hsep f hf)]
          exact h0'
        simp [h1']
      have hallskip := copyFold_allskip to_dir model (copyFilesData from_dir model manifest)
        fs1 [LogEntry.copyingModel model.model_name] hskipcond
      have hrun2 : copy_model decode from_dir to_dir model false fs1 =
          (fs1, ([LogEntry.copyingModel model.model_name] ++
              (copyFilesData from_dir model manifest).map
                (fun f => LogEntry.skippedExisting f.filename))
            ++ [LogEntry.modelCopied model.model_name to_dir], Outcome.ok) := by
        unfold copy_model
        simp only [hpc1, if_true, hfm1, Option.getD_some, hdec]
        rw [if_pos hmt]
        simp only [hfind1]
        rw [hallskip]
      refine ⟨?_, ?_, ?_⟩
      · rw [hrun2]
      · rw [hrun2]
      · intro c' manifest' hc' hdec' f hf
        have hcc : c' = c := (Option.some.inj hc').symm
        subst hcc
        have hmm : manifest' = manifest := by
          rw [hdec] at hdec'
          exact (Option.some.inj hdec').symm
        subst hmm
        rw [hrun2]
        apply List.mem_append_left
        apply List.mem_append_right
        exact List.mem_map_of_mem _ hf

/-- Witness for C7 at a concrete successful copy. -/
theorem claim7_witness :
    ((copy_model decodeA srcDir dstDir modelA false fsA).2.2 = Outcome.ok) ∧
    ((copy_model decodeA srcDir dstDir modelA false
        ((copy_model decodeA srcDir dstDir modelA false fsA).1)).1
      = (copy_model decodeA srcDir dstDir modelA false fsA).1) ∧
    ((copy_model decodeA srcDir dstDir modelA false
        ((copy_model decodeA srcDir dstDir modelA false fsA).1)).2.2 = Outcome.ok) := by
  refine ⟨by decide, ?_, ?_⟩
  · exact (claim7_copy_idempotent decodeA srcDir dstDir modelA fsA
      (by decide) (by decide) (by decide) (by decide)).1
  · exact (claim7_copy_idempotent decodeA srcDir dstDir modelA fsA
      (by decide) (by decide) (by decide) (by decide)).2.1

/-- Witness for C5: with every access bit false, deletion aborts with the
filesystem unchanged. -/
theorem claim5_witness :
    fsNoPerm.files modelA.path = some [1] ∧ decodeA [1] = some manA ∧
    (∃ f ∈ deleteFilesData srcDir modelA manA,
      ¬(fsNoPerm.accessW f.filepath = true ∨
        (fsNoPerm.accessR f.filepath.dropLast = true ∧
         fsNoPerm.accessX f.filepath.dropLast = true ∧
         fsNoPerm.accessW f.filepath.dropLast = true))) ∧
    ((delete_model decodeA srcDir modelA [] fsNoPerm).1 = fsNoPerm ∧
     (delete_model decodeA srcDir modelA [] fsNoPerm).2.2 = Outcome.exited 1) := by
  refine ⟨by decide, by decide, by decide, ?_⟩
  exact (claim5_perm_preflight decodeA srcDir modelA [] fsNoPerm [1] manA
    (by decide) (by decide)).1 (by decide)
